import Mathlib

/-!
Shallow embedding of the `pool` Go package (github.com/henrywhitaker3/pool):
a generic self-healing connection pool with round-robin shared retrieval
(`Next`), exclusive checkout (`ExNext`/`Return`), a periodic reconciliation
pass (`probe`) and an idempotent shutdown (`Close`).

Modelling conventions:
- Go `uint64` is a `Nat` kept below `2^64` by explicit `% 2^64` where the
  code can overflow (the retrieval cursor `next`).
- Go's conversion `int(n)` from `uint64` and the signed `%` operator are
  modelled by `toInt64` and `Int.tmod` (Go's `%` truncates toward zero).
- The connect factory `func() (T, error)` is modelled as a deterministic
  stream `connect : Nat → Option T` indexed by an invocation counter
  (`seed` in the state); `none` models a factory error.
- A connection's `Close() error` result is modelled by the configuration
  predicate `closeErr : T → Bool`; the code only logs that error, so it
  influences only the `errorLogs` counter of the model state.
- Out-of-range slice indexing panics in Go; operations that can index out
  of range return `GoResult.panic` in that case.
- Mutexes serialise access; the model is the sequential semantics of the
  operations, which is what the single-threaded claims are about.
-/

namespace PoolSpec

/-- Result of a Go operation: a value, or a runtime panic
(out-of-range slice index). -/
inductive GoResult (α : Type) where
| ok (a : α) : GoResult α
| panic : GoResult α
deriving DecidableEq

/-- Go `int64(n)` for a `uint64` value `n < 2^64`. -/
def toInt64 (n : Nat) : Int :=
if n < 2 ^ 63 then (n : Int) else (n : Int) - 2 ^ 64

/-- The registry index computed in `Next` and `ExNext`: Go `int(n) % len`,
where `n` is the incremented `uint64` cursor and `%` is Go's truncated
remainder. -/
def goIdx (n : Nat) (len : Nat) : Int :=
(toInt64 n).tmod (len : Int)

/-- The construction errors of the package (`errors.go`). -/
inductive PoolErr where
| noConnectFunc : PoolErr
| noHealthyFunc : PoolErr
| invalidConnectionCount : PoolErr
| invalidProbeInterval : PoolErr
deriving DecidableEq

/-- `PoolOptions[T]`: the configuration bundle passed to `New`, together
with the behaviour of the pluggable collaborators (factory results, health
predicate, close-error behaviour, which metrics instruments are non-nil). -/
structure PoolOptions (T : Type) where
  /-- whether `Connect` is non-nil -/
  connectPresent : Bool
  /-- result of the k-th invocation of the connect factory; `none` = error -/
  connect : Nat → Option T
  /-- the optional `Healthy` predicate (`none` = nil) -/
  healthy : Option (T → Bool)
  /-- `Connections` (a Go `int`) -/
  connections : Int
  /-- `ProbeInterval` (a Go `time.Duration`, i.e. `int64` nanoseconds) -/
  probeInterval : Int
  /-- whether `Logger` is non-nil -/
  loggerPresent : Bool
  /-- whether `Metrics` is non-nil -/
  metricsPresent : Bool
  /-- whether `Metrics.Connections` is non-nil -/
  metricsConnections : Bool
  /-- whether `Metrics.ConnectionErrors` is non-nil -/
  metricsConnectionErrors : Bool
  /-- whether `Metrics.Retrievals` is non-nil -/
  metricsRetrievals : Bool
  /-- whether `c.Close()` returns a non-nil error for connection `c` -/
  closeErr : T → Bool

/-- `PoolOptions.validate`. -/
def validate {T : Type} (p : PoolOptions T) : Option PoolErr :=
if p.connectPresent = false then some PoolErr.noConnectFunc
else if p.connections < 1 then some PoolErr.invalidConnectionCount
else if p.probeInterval ≤ 0 then some PoolErr.invalidProbeInterval
else none

/-- The mutable state of a `Pool[T]`, plus the observable effect history
the claims talk about (connections closed so far, metric counters, error
log lines). -/
structure PoolState (T : Type) where
  /-- the registry slice `pool []T` -/
  pool : List T
  /-- the retrieval cursor `next uint64` -/
  next : Nat
  /-- whether `closer : sync.Once` has fired -/
  closerDone : Bool
  /-- whether the buffered `closed` channel currently holds a token -/
  closedToken : Bool
  /-- number of connect-factory invocations so far (indexes `connect`) -/
  seed : Nat
  /-- connections on which `Close()` has been invoked, in order -/
  closedConns : List T
  /-- value of the `Retrievals` counter -/
  retrievals : Nat
  /-- value of the `ConnectionErrors` counter -/
  connectionErrors : Nat
  /-- last value set on the `Connections` gauge -/
  connectionsGauge : Option Int
  /-- number of `Errorf` log lines emitted -/
  errorLogs : Nat
deriving DecidableEq

variable {T : Type}

/-- `Pool.Size`: the registry length. -/
def Size (s : PoolState T) : Nat := s.pool.length

/-- `Pool.reportSize`. -/
def reportSize (cfg : PoolOptions T) (size : Int) (s : PoolState T) : PoolState T :=
if cfg.metricsPresent = true ∧ cfg.metricsConnections = true then
  { s with connectionsGauge := some size }
else s

/-- `Pool.reportError`. -/
def reportError (cfg : PoolOptions T) (s : PoolState T) : PoolState T :=
if cfg.metricsPresent = true ∧ cfg.metricsConnectionErrors = true then
  { s with connectionErrors := s.connectionErrors + 1 }
else s

/-- `Pool.reportRetrieval`. -/
def reportRetrieval (cfg : PoolOptions T) (s : PoolState T) : PoolState T :=
if cfg.metricsPresent = true ∧ cfg.metricsRetrievals = true then
  { s with retrievals := s.retrievals + 1 }
else s

/-- `Pool.removeFromPool(index)`: `p.pool = append(p.pool[:index], p.pool[index+1:]...)`,
i.e. erase the element at `index`, shifting the remainder left. -/
def removeFromPool (index : Nat) (s : PoolState T) : PoolState T :=
{ s with pool := s.pool.eraseIdx index }

/-- Invoking `c.Close()`: records the invocation, and logs an error line
when the close fails (the error is only ever logged, never propagated). -/
def closeConn (cfg : PoolOptions T) (c : T) (s : PoolState T) : PoolState T :=
let s1 := { s with closedConns := s.closedConns ++ [c] }
if cfg.closeErr c then { s1 with errorLogs := s1.errorLogs + 1 } else s1

/-- `Pool.Return(c)`: append `c` to the registry. -/
def Return (s : PoolState T) (c : T) : PoolState T :=
{ s with pool := s.pool ++ [c] }

/-- `Pool.Next`: shared round-robin retrieval. Returns `(none, s)` on an
empty registry; otherwise increments the cursor, bumps the retrievals
counter and reads `pool[int(n)%len]`, panicking if that index is out of
range (it is negative once the cursor passes `2^63`). -/
def Next (cfg : PoolOptions T) (s : PoolState T) : GoResult (Option T × PoolState T) :=
let len := Size s
if len = 0 then GoResult.ok (none, s)
else
  let n := (s.next + 1) % 2 ^ 64
  let s1 := { s with next := n }
  let s2 := reportRetrieval cfg s1
  let idx := goIdx n len
  if h : 0 ≤ idx ∧ idx.toNat < len then
    GoResult.ok (some (s.pool.get ⟨idx.toNat, h.2⟩), s2)
  else GoResult.panic

/-- `Pool.ExNext`: exclusive retrieval. Same index computation as `Next`,
but the connection at the index is removed from the registry before being
returned. -/
def ExNext (cfg : PoolOptions T) (s : PoolState T) : GoResult (Option T × PoolState T) :=
let len := Size s
if len = 0 then GoResult.ok (none, s)
else
  let n := (s.next + 1) % 2 ^ 64
  let s1 := { s with next := n }
  let idx := goIdx n len
  if h : 0 ≤ idx ∧ idx.toNat < len then
    let conn := s1.pool.get ⟨idx.toNat, h.2⟩
    let s2 := reportRetrieval cfg s1
    let s3 := removeFromPool idx.toNat s2
    GoResult.ok (some conn, s3)
  else GoResult.panic

/-- The drain loop of `Pool.Close`: `for range len { pool[0].Close(); removeFromPool(0) }`.
The fuel is the registry length read before the loop. -/
def closeDrain (cfg : PoolOptions T) : Nat → PoolState T → PoolState T
| 0, s => s
| m + 1, s =>
  match s.pool with
  | [] => s
  | c :: _ => closeDrain cfg m (removeFromPool 0 (closeConn cfg c s))

/-- `Pool.Close`: guarded by `sync.Once`; sends the closed token, then
drains and closes every connection currently in the registry, front to
back. -/
def Close (cfg : PoolOptions T) (s : PoolState T) : PoolState T :=
if s.closerDone then s
else
  let s0 := { s with closerDone := true, closedToken := true }
  closeDrain cfg (Size s0) s0

/-- The health-check loop of `Pool.probe`:
`for i := range len { if !Healthy(pool[i-removed]) { close; log; reportError; removeFromPool(i-removed); removed++ } }`.
The fuel counts the remaining iterations (`len` at the call site); a read
out of the scan window cannot occur when the loop is entered with
`i = removed = 0` and fuel equal to the registry length. -/
def healthLoop (cfg : PoolOptions T) (hf : T → Bool) :
    Nat → Nat → Nat → PoolState T → PoolState T
| 0, _, _, s => s
| fuel + 1, i, removed, s =>
  match s.pool.get? (i - removed) with
  | none => healthLoop cfg hf fuel (i + 1) removed s
  | some c =>
    if hf c then healthLoop cfg hf fuel (i + 1) removed s
    else
      let s1 := closeConn cfg c s
      let s2 := { s1 with errorLogs := s1.errorLogs + 1 }
      let s3 := reportError cfg s2
      let s4 := removeFromPool (i - removed) s3
      healthLoop cfg hf fuel (i + 1) (removed + 1) s4

/-- The replenishment loop of `Pool.probe`:
`for range diff { conn, err := Connect(); if err != nil { log; reportError; continue }; Return(conn) }`. -/
def connectLoop (cfg : PoolOptions T) : Nat → PoolState T → PoolState T
| 0, s => s
| m + 1, s =>
  let k := s.seed
  let s1 := { s with seed := k + 1 }
  match cfg.connect k with
  | none =>
    connectLoop cfg m (reportError cfg { s1 with errorLogs := s1.errorLogs + 1 })
  | some c => connectLoop cfg m (Return s1 c)

/-- `Pool.probe`: one reconciliation pass. Consumes a pending closed token
and returns immediately if one is present; otherwise reports the size,
takes the fast path when the size already equals the target, and otherwise
runs health eviction (when a predicate is configured) followed by
replenishment of `Connections - len` connections, `len` being the size
read before eviction. -/
def probe (cfg : PoolOptions T) (s : PoolState T) : PoolState T :=
if s.closedToken then { s with closedToken := false }
else
  let len := Size s
  let s1 := reportSize cfg (len : Int) s
  if (len : Int) = cfg.connections then s1
  else
    let s2 :=
      match cfg.healthy with
      | none => s1
      | some hf => healthLoop cfg hf len 0 0 s1
    let diff : Int := cfg.connections - (len : Int)
    connectLoop cfg diff.toNat s2

/-- The freshly allocated state built in `New` before the eager pass. -/
def initialState (T : Type) : PoolState T :=
{ pool := [], next := 0, closerDone := false, closedToken := false,
  seed := 0, closedConns := [], retrievals := 0, connectionErrors := 0,
  connectionsGauge := none, errorLogs := 0 }

/-- `New`: validates the options and, on success, runs one reconciliation
pass synchronously (`connect` calls `probe` before starting the ticker)
and returns the pool. -/
def New (cfg : PoolOptions T) : Except PoolErr (PoolState T) :=
match validate cfg with
| some e => Except.error e
| none => Except.ok (probe cfg (initialState T))

/-- `m` consecutive single-threaded calls to `Next`, collecting the
returned connections in order. Collection stops at an absence result and
the whole run panics if any call panics. -/
def nexts (cfg : PoolOptions T) : Nat → PoolState T → GoResult (List T × PoolState T)
| 0, s => GoResult.ok ([], s)
| m + 1, s =>
  match Next cfg s with
  | GoResult.panic => GoResult.panic
  | GoResult.ok (none, s') => GoResult.ok ([], s')
  | GoResult.ok (some c, s') =>
    match nexts cfg m s' with
    | GoResult.panic => GoResult.panic
    | GoResult.ok (cs, s'') => GoResult.ok (c :: cs, s'')

/-- One public operation on the pool, for reasoning about sequences of
operations interleaved with reconciliation passes. -/
inductive Op (T : Type) where
| next : Op T
| exNext : Op T
| ret (c : T) : Op T
| probing : Op T
| closing : Op T

/-- Execute one operation, discarding retrieval results. -/
def stepOp (cfg : PoolOptions T) (op : Op T) (s : PoolState T) : GoResult (PoolState T) :=
match op with
| Op.next =>
  match Next cfg s with
  | GoResult.panic => GoResult.panic
  | GoResult.ok (_, s') => GoResult.ok s'
| Op.exNext =>
  match ExNext cfg s with
  | GoResult.panic => GoResult.panic
  | GoResult.ok (_, s') => GoResult.ok s'
| Op.ret c => GoResult.ok (Return s c)
| Op.probing => GoResult.ok (probe cfg s)
| Op.closing => GoResult.ok (Close cfg s)

/-- Run a sequence of operations. -/
def runPool (cfg : PoolOptions T) : List (Op T) → PoolState T → GoResult (PoolState T)
| [], s => GoResult.ok s
| op :: ops, s =>
  match stepOp cfg op s with
  | GoResult.panic => GoResult.panic
  | GoResult.ok s' => runPool cfg ops s'

/-- Legality of an operation sequence, tracking the number `o` of
connections currently checked out exclusively: no call panics, every
`ret` matches an outstanding exclusive checkout (the documented caller
contract), and — the amendment forced by the counterexample — no
reconciliation pass runs while a checkout is outstanding. -/
def legalRun (cfg : PoolOptions T) : Nat → List (Op T) → PoolState T → Bool
| _, [], _ => true
| o, Op.next :: ops, s =>
  match Next cfg s with
  | GoResult.panic => false
  | GoResult.ok (_, s') => legalRun cfg o ops s'
| o, Op.exNext :: ops, s =>
  match ExNext cfg s with
  | GoResult.panic => false
  | GoResult.ok (none, s') => legalRun cfg o ops s'
  | GoResult.ok (some _, s') => legalRun cfg (o + 1) ops s'
| o, Op.ret c :: ops, s => decide (0 < o) && legalRun cfg (o - 1) ops (Return s c)
| o, Op.probing :: ops, s => decide (o = 0) && legalRun cfg o ops (probe cfg s)
| o, Op.closing :: ops, s => legalRun cfg o ops (Close cfg s)

/-- A concrete configuration over `Nat` connections used by the witnesses:
target 2, factory call `k` yields connection `100 + k`, connections below
`50` are healthy, every metrics instrument is wired, closes never fail. -/
def cfgA : PoolOptions Nat :=
{ connectPresent := true, connect := fun k => some (100 + k),
  healthy := some (fun c => decide (c < 50)), connections := 2, probeInterval := 1,
  loggerPresent := false, metricsPresent := true, metricsConnections := true,
  metricsConnectionErrors := true, metricsRetrievals := true,
  closeErr := fun _ => false }

/-- `cfgA` with target 2 but no metrics sink and no logger. -/
def cfgQ : PoolOptions Nat :=
{ cfgA with
  metricsPresent := false, metricsConnections := false,
  metricsConnectionErrors := false, metricsRetrievals := false }

/-- `cfgQ` with target 1, used by the fast-path counterexample. -/
def cfgF : PoolOptions Nat := { cfgQ with connections := 1 }

/-- `cfgQ` with target 1 and no health predicate, used by the trace
counterexample. -/
def cfgT : PoolOptions Nat := { cfgQ with connections := 1, healthy := none }

/-- A registry holding the single unhealthy connection `99`. -/
def stUnhealthy : PoolState Nat := { initialState Nat with pool := [99] }

/-- A registry of two healthy connections with a fresh cursor. -/
def stTwo : PoolState Nat := { initialState Nat with pool := [7, 8] }

/-- A three-connection registry whose cursor is about to wrap the signed
64-bit range: the next retrieval computes `int(2^64 - 3) = -3`. -/
def stWrap : PoolState Nat := { initialState Nat with pool := [10, 20, 30], next := 2 ^ 64 - 4 }

/-- A three-connection registry whose cursor is about to reach `2^63`:
the next retrieval computes a negative index and panics. -/
def stNeg : PoolState Nat := { initialState Nat with pool := [10, 20, 30], next := 2 ^ 63 - 1 }

/-- The pool state produced by `New cfgT`: one connection `100`, one
factory invocation consumed. -/
def stT : PoolState Nat := { initialState Nat with pool := [100], seed := 1 }

/-- A three-connection registry used by the `Close` witness. -/
def stThree : PoolState Nat := { initialState Nat with pool := [1, 2, 3] }

/-! ### Basic lemmas about the state helpers -/

lemma reportSize_eq (cfg : PoolOptions T) (sz : Int) (s : PoolState T) :
    reportSize cfg sz s =
    { s with connectionsGauge :=
        if cfg.metricsPresent = true ∧ cfg.metricsConnections = true then some sz
        else s.connectionsGauge } := by
  unfold reportSize
  split
  · rfl
  · rfl

lemma reportError_eq (cfg : PoolOptions T) (s : PoolState T) :
    reportError cfg s =
    { s with connectionErrors :=
        s.connectionErrors +
          (if cfg.metricsPresent = true ∧ cfg.metricsConnectionErrors = true then 1
           else 0) } := by
  unfold reportError
  split
  · rfl
  · simp

lemma reportRetrieval_eq (cfg : PoolOptions T) (s : PoolState T) :
    reportRetrieval cfg s =
    { s with retrievals :=
        s.retrievals +
          (if cfg.metricsPresent = true ∧ cfg.metricsRetrievals = true then 1 else 0) } := by
  unfold reportRetrieval
  split
  · rfl
  · simp

lemma eraseIdx_append_length (l₁ : List T) (c : T) (l₂ : List T) :
    (l₁ ++ c :: l₂).eraseIdx l₁.length = l₁ ++ l₂ := by
  induction l₁ with
  | nil => rfl
  | cons a l ih => simpa [List.eraseIdx] using ih

/-! ### The drain loop of Close -/

lemma closeDrain_spec (cfg : PoolOptions T) (l : List T) : ∀ s : PoolState T,
    s.pool = l →
    closeDrain cfg l.length s =
    { s with pool := [],
             closedConns := s.closedConns ++ l,
             errorLogs := s.errorLogs + (l.filter cfg.closeErr).length } := by
  induction l with
  | nil =>
    intro s hs
    cases s
    simp only at hs
    subst hs
    simp [closeDrain]
  | cons c l ih =>
    intro s hs
    have step : closeDrain cfg (c :: l).length s =
        closeDrain cfg l.length (removeFromPool 0 (closeConn cfg c s)) := by
      simp only [List.length_cons, closeDrain, hs]
    rw [step, ih (removeFromPool 0 (closeConn cfg c s)) (by
      unfold removeFromPool closeConn
      split
      · simp [hs, List.eraseIdx]
      · simp [hs, List.eraseIdx])]
    unfold removeFromPool closeConn
    cases hc : cfg.closeErr c
    · cases s
      simp_all [List.eraseIdx]
    · cases s
      simp_all [List.eraseIdx]
      omega

lemma Close_spec (cfg : PoolOptions T) (s : PoolState T) (h : s.closerDone = false) :
    Close cfg s =
    { s with pool := [],
             closerDone := true,
             closedToken := true,
             closedConns := s.closedConns ++ s.pool,
             errorLogs := s.errorLogs + (s.pool.filter cfg.closeErr).length } := by
  unfold Close
  rw [if_neg (by simp [h])]
  exact closeDrain_spec cfg s.pool _ rfl

lemma Close_closerDone (cfg : PoolOptions T) (s : PoolState T) :
    (Close cfg s).closerDone = true ∨ Close cfg s = s := by
  by_cases h : s.closerDone = true
  · right
    unfold Close
    rw [if_pos h]
  · left
    rw [Close_spec cfg s (by simpa using h)]

lemma Close_of_closerDone (cfg : PoolOptions T) (s : PoolState T)
    (h : s.closerDone = true) : Close cfg s = s := by
  unfold Close
  rw [if_pos h]

/-- C5: `Close` is idempotent — `N ≥ 1` invocations end in the same state
as one; after the first `Close` the registry is empty, every connection
that was in the registry (here: any `c` occurring once, not closed
before) has had its close operation invoked exactly once, and close
failures only add error-log lines, never propagate (`Close` is total and
its result does not depend on close errors beyond the log counter). -/
theorem c5_close_idempotent [DecidableEq T] (cfg : PoolOptions T) (s : PoolState T)
    (N : Nat) (c : T) (hN : 1 ≤ N) (h : s.closerDone = false)
    (hc1 : s.pool.count c = 1) (hc0 : s.closedConns.count c = 0) :
    (Close cfg)^[N] s = Close cfg s ∧
    Size (Close cfg s) = 0 ∧
    (Close cfg s).closedConns.count c = 1 ∧
    (Close cfg s).errorLogs = s.errorLogs + (s.pool.filter cfg.closeErr).length := by
  have hspec := Close_spec cfg s h
  have hdone : (Close cfg s).closerDone = true := by rw [hspec]
  refine ⟨?_, ?_, ?_, ?_⟩
  · induction N with
    | zero => omega
    | succ n ih =>
      cases Nat.eq_zero_or_pos n with
      | inl h0 => subst h0; simp
      | inr hpos =>
        rw [Function.iterate_succ_apply', ih hpos]
        exact Close_of_closerDone cfg _ hdone
  · rw [hspec]
    rfl
  · rw [hspec]
    simp [List.count_append, hc0, hc1]
  · rw [hspec]

/-- Witness for C5 at a concrete pool of three connections, closed twice. -/
theorem c5_close_idempotent_witness :
    (Close cfgA)^[2] stThree = Close cfgA stThree ∧
    Size (Close cfgA stThree) = 0 ∧
    (Close cfgA stThree).closedConns.count 2 = 1 ∧
    (Close cfgA stThree).errorLogs =
      stThree.errorLogs + (stThree.pool.filter cfgA.closeErr).length :=
  c5_close_idempotent cfgA stThree 2 2 (by decide) (by decide) (by decide) (by decide)

/-- C6: construction rejects invalid configuration with one distinct error
per cause and creates no pool: a missing connect factory yields
`ErrNoConnectFunc` whatever the other fields hold; with a factory present,
a count below one yields `ErrInvalidConnectionCount`; with a factory and a
positive count, a non-positive interval yields `ErrInvalidProbeInterval`;
validation succeeds exactly when none of the three causes holds, and it
ignores the health predicate, logger and metrics fields entirely. -/
theorem c6_validate_errors (cfg : PoolOptions T) :
    (validate cfg = some PoolErr.noConnectFunc ↔ cfg.connectPresent = false) ∧
    (cfg.connectPresent = true →
      (validate cfg = some PoolErr.invalidConnectionCount ↔ cfg.connections < 1)) ∧
    (cfg.connectPresent = true → 1 ≤ cfg.connections →
      (validate cfg = some PoolErr.invalidProbeInterval ↔ cfg.probeInterval ≤ 0)) ∧
    (validate cfg = none ↔
      (cfg.connectPresent = true ∧ 1 ≤ cfg.connections ∧ 0 < cfg.probeInterval)) ∧
    (∀ e, validate cfg = some e → New cfg = Except.error e) ∧
    (∀ (h : Option (T → Bool)) (lg m₁ m₂ m₃ m₄ : Bool),
      validate
        { cfg with
          healthy := h, loggerPresent := lg, metricsPresent := m₁,
          metricsConnections := m₂, metricsConnectionErrors := m₃,
          metricsRetrievals := m₄ } = validate cfg) := by
  refine ⟨?_, ?_, ?_, ?_, ?_, ?_⟩
  · unfold validate
    split
    · simp_all
    · split
      · simp_all
      · split
        · simp_all
        · simp_all
  · intro hc
    unfold validate
    rw [if_neg (by simp [hc])]
    split
    · simp_all
    · split
      · simp_all
      · simp_all
  · intro hc hn
    unfold validate
    rw [if_neg (by simp [hc]), if_neg (by omega)]
    split
    · simp_all
    · simp_all
  · unfold validate
    split
    · simp_all
    · split
      · simp_all
      · split
        · simp_all
        · simp_all
  · intro e he
    unfold New
    rw [he]
  · intro h lg m₁ m₂ m₃ m₄
    rfl

/-- Witness for C6: a configuration with no factory and count zero is
rejected with the missing-factory error, and a valid configuration is
accepted whatever the optional collaborators are. -/
theorem c6_validate_errors_witness :
    (validate { cfgA with connectPresent := false, connections := 0 } =
        some PoolErr.noConnectFunc ↔
      ({ cfgA with connectPresent := false, connections := 0 } :
        PoolOptions Nat).connectPresent = false) ∧
    (validate { cfgA with connectPresent := false, connections := 0 } = none ↔
      (({ cfgA with connectPresent := false, connections := 0 } :
          PoolOptions Nat).connectPresent = true ∧
        1 ≤ ({ cfgA with connectPresent := false, connections := 0 } :
          PoolOptions Nat).connections ∧
        0 < ({ cfgA with connectPresent := false, connections := 0 } :
          PoolOptions Nat).probeInterval)) :=
  ⟨(c6_validate_errors
      { cfgA with connectPresent := false, connections := 0 }).1,
    (c6_validate_errors
      { cfgA with connectPresent := false, connections := 0 }).2.2.2.1⟩

/-! ### The replenishment loop -/

lemma connect_shift (cfg : PoolOptions T) (a : Nat) :
    (fun k => cfg.connect (a + 1 + k)) = (fun k => cfg.connect (a + (k + 1))) := by
  funext k
  congr 1
  omega

lemma connectLoop_pool (cfg : PoolOptions T) (m : Nat) : ∀ s : PoolState T,
    (connectLoop cfg m s).pool =
      s.pool ++ (List.range m).filterMap (fun k => cfg.connect (s.seed + k)) := by
  induction m with
  | zero =>
    intro s
    simp [connectLoop]
  | succ m ih =>
    intro s
    cases hc : cfg.connect s.seed with
    | none =>
      have step : connectLoop cfg (m + 1) s =
          connectLoop cfg m
            (reportError cfg
              { s with seed := s.seed + 1, errorLogs := s.errorLogs + 1 }) := by
        simp only [connectLoop, hc]
      rw [step, ih, reportError_eq]
      simp only [List.range_succ_eq_map, List.filterMap_cons, List.filterMap_map,
        Function.comp_def, Nat.succ_eq_add_one, Nat.add_zero, hc,
        connect_shift cfg s.seed]
    | some c =>
      have step : connectLoop cfg (m + 1) s =
          connectLoop cfg m (Return { s with seed := s.seed + 1 } c) := by
        simp only [connectLoop, hc]
      rw [step, ih]
      unfold Return
      simp only [List.range_succ_eq_map, List.filterMap_cons, List.filterMap_map,
        Function.comp_def, Nat.succ_eq_add_one, Nat.add_zero, hc,
        connect_shift cfg s.seed, List.append_assoc, List.singleton_append]

lemma connectFail_shift (cfg : PoolOptions T) (a : Nat) :
    (fun k => (cfg.connect (a + 1 + k)).isNone) =
      (fun k => (cfg.connect (a + (k + 1))).isNone) := by
  funext k
  have h : a + 1 + k = a + (k + 1) := by omega
  rw [h]

lemma connectLoop_seed (cfg : PoolOptions T) (m : Nat) : ∀ s : PoolState T,
    (connectLoop cfg m s).seed = s.seed + m := by
  induction m with
  | zero =>
    intro s
    simp [connectLoop]
  | succ m ih =>
    intro s
    cases hc : cfg.connect s.seed with
    | none =>
      have step : connectLoop cfg (m + 1) s =
          connectLoop cfg m
            (reportError cfg
              { s with seed := s.seed + 1, errorLogs := s.errorLogs + 1 }) := by
        simp only [connectLoop, hc]
      rw [step, ih, reportError_eq]
      simp only
      omega
    | some c =>
      have step : connectLoop cfg (m + 1) s =
          connectLoop cfg m (Return { s with seed := s.seed + 1 } c) := by
        simp only [connectLoop, hc]
      rw [step, ih]
      unfold Return
      simp only
      omega

lemma connectLoop_untouched (cfg : PoolOptions T) (m : Nat) : ∀ s : PoolState T,
    (connectLoop cfg m s).next = s.next ∧
    (connectLoop cfg m s).closerDone = s.closerDone ∧
    (connectLoop cfg m s).closedToken = s.closedToken ∧
    (connectLoop cfg m s).closedConns = s.closedConns ∧
    (connectLoop cfg m s).retrievals = s.retrievals := by
  induction m with
  | zero =>
    intro s
    simp [connectLoop]
  | succ m ih =>
    intro s
    cases hc : cfg.connect s.seed with
    | none =>
      have step : connectLoop cfg (m + 1) s =
          connectLoop cfg m
            (reportError cfg
              { s with seed := s.seed + 1, errorLogs := s.errorLogs + 1 }) := by
        simp only [connectLoop, hc]
      rw [step]
      rw [reportError_eq]
      exact ih _
    | some c =>
      have step : connectLoop cfg (m + 1) s =
          connectLoop cfg m (Return { s with seed := s.seed + 1 } c) := by
        simp only [connectLoop, hc]
      rw [step]
      exact ih _

lemma connectLoop_errorLogs (cfg : PoolOptions T) (m : Nat) : ∀ s : PoolState T,
    (connectLoop cfg m s).errorLogs =
      s.errorLogs +
        ((List.range m).filter (fun k => (cfg.connect (s.seed + k)).isNone)).length := by
  induction m with
  | zero =>
    intro s
    simp [connectLoop]
  | succ m ih =>
    intro s
    cases hc : cfg.connect s.seed with
    | none =>
      have step : connectLoop cfg (m + 1) s =
          connectLoop cfg m
            (reportError cfg
              { s with seed := s.seed + 1, errorLogs := s.errorLogs + 1 }) := by
        simp only [connectLoop, hc]
      rw [step, ih, reportError_eq]
      simp only [List.range_succ_eq_map, List.filter_cons, List.filter_map,
        Function.comp_def, Nat.succ_eq_add_one, Nat.add_zero, hc,
        connectFail_shift cfg s.seed, Option.isNone_none, List.length_cons,
        List.length_map, if_true]
      omega
    | some c =>
      have step : connectLoop cfg (m + 1) s =
          connectLoop cfg m (Return { s with seed := s.seed + 1 } c) := by
        simp only [connectLoop, hc]
      rw [step, ih]
      unfold Return
      simp [List.range_succ_eq_map, List.filter_cons, List.filter_map,
        Function.comp_def, Nat.succ_eq_add_one, Nat.add_zero, hc,
        connectFail_shift cfg s.seed]

lemma connectLoop_connectionErrors (cfg : PoolOptions T) (m : Nat) : ∀ s : PoolState T,
    (connectLoop cfg m s).connectionErrors =
      s.connectionErrors +
        (if cfg.metricsPresent = true ∧ cfg.metricsConnectionErrors = true then
          ((List.range m).filter (fun k => (cfg.connect (s.seed + k)).isNone)).length
         else 0) := by
  induction m with
  | zero =>
    intro s
    simp [connectLoop]
  | succ m ih =>
    intro s
    cases hc : cfg.connect s.seed with
    | none =>
      have step : connectLoop cfg (m + 1) s =
          connectLoop cfg m
            (reportError cfg
              { s with seed := s.seed + 1, errorLogs := s.errorLogs + 1 }) := by
        simp only [connectLoop, hc]
      rw [step, ih, reportError_eq]
      simp only [List.range_succ_eq_map, List.filter_cons, List.filter_map,
        Function.comp_def, Nat.succ_eq_add_one, Nat.add_zero, hc,
        connectFail_shift cfg s.seed, Option.isNone_none, List.length_cons,
        List.length_map, if_true]
      split
      · omega
      · omega
    | some c =>
      have step : connectLoop cfg (m + 1) s =
          connectLoop cfg m (Return { s with seed := s.seed + 1 } c) := by
        simp only [connectLoop, hc]
      rw [step, ih]
      unfold Return
      simp [List.range_succ_eq_map, List.filter_cons, List.filter_map,
        Function.comp_def, Nat.succ_eq_add_one, Nat.add_zero, hc,
        connectFail_shift cfg s.seed]

/-! ### The health-eviction loop -/

lemma closeConn_eq (cfg : PoolOptions T) (c : T) (s : PoolState T) :
    closeConn cfg c s =
    { s with closedConns := s.closedConns ++ [c],
             errorLogs := s.errorLogs + (if cfg.closeErr c then 1 else 0) } := by
  unfold closeConn
  split
  · simp_all
  · simp_all

lemma healthLoop_spec (cfg : PoolOptions T) (hf : T → Bool) :
    ∀ (rest done : List T) (removed : Nat) (s : PoolState T),
    s.pool = done ++ rest →
    (healthLoop cfg hf rest.length (done.length + removed) removed s).pool =
        done ++ rest.filter hf ∧
    (healthLoop cfg hf rest.length (done.length + removed) removed s).closedConns =
        s.closedConns ++ rest.filter (fun c => ! hf c) ∧
    (healthLoop cfg hf rest.length (done.length + removed) removed s).connectionErrors =
        s.connectionErrors +
          (if cfg.metricsPresent = true ∧ cfg.metricsConnectionErrors = true then
            (rest.filter (fun c => ! hf c)).length
           else 0) ∧
    (healthLoop cfg hf rest.length (done.length + removed) removed s).errorLogs =
        s.errorLogs + (rest.filter (fun c => ! hf c)).length +
          ((rest.filter (fun c => ! hf c)).filter cfg.closeErr).length ∧
    (healthLoop cfg hf rest.length (done.length + removed) removed s).next = s.next ∧
    (healthLoop cfg hf rest.length (done.length + removed) removed s).seed = s.seed ∧
    (healthLoop cfg hf rest.length (done.length + removed) removed s).closerDone =
        s.closerDone ∧
    (healthLoop cfg hf rest.length (done.length + removed) removed s).closedToken =
        s.closedToken ∧
    (healthLoop cfg hf rest.length (done.length + removed) removed s).retrievals =
        s.retrievals := by
  intro rest
  induction rest with
  | nil =>
    intro done removed s hs
    simp only [List.length_nil, healthLoop, List.filter_nil, List.append_nil]
    simp [hs]
  | cons c rest ih =>
    intro done removed s hs
    have hidx : done.length + removed - removed = done.length := by omega
    have hget : s.pool.get? done.length = some c := by
      rw [hs, List.get?_append_right (le_refl done.length)]
      simp
    cases hhf : hf c with
    | true =>
      have step :
          healthLoop cfg hf (c :: rest).length (done.length + removed) removed s =
            healthLoop cfg hf rest.length (done.length + removed + 1) removed s := by
        simp only [List.length_cons, healthLoop, hidx, hget, hhf, if_true]
      have harg : done.length + removed + 1 = (done ++ [c]).length + removed := by
        simp
        omega
      have ihc := ih (done ++ [c]) removed s (by simp [hs])
      rw [step, harg]
      simp only [ihc.1, ihc.2.1, ihc.2.2.1, ihc.2.2.2.1, ihc.2.2.2.2.1,
        ihc.2.2.2.2.2.1, ihc.2.2.2.2.2.2.1, ihc.2.2.2.2.2.2.2.1,
        ihc.2.2.2.2.2.2.2.2]
      simp [List.filter_cons, hhf, List.append_assoc]
    | false =>
      have step :
          healthLoop cfg hf (c :: rest).length (done.length + removed) removed s =
            healthLoop cfg hf rest.length (done.length + removed + 1) (removed + 1)
              (removeFromPool done.length
                (reportError cfg
                  { closeConn cfg c s with
                    errorLogs := (closeConn cfg c s).errorLogs + 1 })) := by
        simp only [List.length_cons, healthLoop, hidx, hget, hhf]
        rfl
      set s4 := removeFromPool done.length
          (reportError cfg
            { closeConn cfg c s with
              errorLogs := (closeConn cfg c s).errorLogs + 1 }) with hs4
      have hs4pool : s4.pool = done ++ rest := by
        rw [hs4]
        unfold removeFromPool
        rw [reportError_eq, closeConn_eq]
        simp only
        rw [hs]
        exact eraseIdx_append_length done c rest
      have hs4fields :
          s4.closedConns = s.closedConns ++ [c] ∧
          s4.connectionErrors = s.connectionErrors +
            (if cfg.metricsPresent = true ∧ cfg.metricsConnectionErrors = true then 1
             else 0) ∧
          s4.errorLogs = s.errorLogs + (if cfg.closeErr c then 1 else 0) + 1 ∧
          s4.next = s.next ∧ s4.seed = s.seed ∧ s4.closerDone = s.closerDone ∧
          s4.closedToken = s.closedToken ∧ s4.retrievals = s.retrievals := by
        rw [hs4]
        unfold removeFromPool
        rw [reportError_eq, closeConn_eq]
        simp
      have harg : done.length + removed + 1 = done.length + (removed + 1) := by omega
      have ihc := ih done (removed + 1) s4 hs4pool
      rw [step, harg]
      refine ⟨?_, ?_, ?_, ?_, ?_, ?_, ?_, ?_, ?_⟩
      · rw [ihc.1]
        simp [List.filter_cons, hhf]
      · rw [ihc.2.1, hs4fields.1]
        simp [List.filter_cons, hhf]
      · rw [ihc.2.2.1, hs4fields.2.1]
        simp only [List.filter_cons, hhf, Bool.not_false, if_true]
        split
        · simp
          omega
        · simp
      · rw [ihc.2.2.2.1, hs4fields.2.2.1]
        simp only [List.filter_cons, hhf, Bool.not_false, if_true]
        cases hce : cfg.closeErr c
        · simp [List.filter_cons, hce]
          omega
        · simp [List.filter_cons, hce]
          omega
      · rw [ihc.2.2.2.2.1, hs4fields.2.2.2.1]
      · rw [ihc.2.2.2.2.2.1, hs4fields.2.2.2.2.1]
      · rw [ihc.2.2.2.2.2.2.1, hs4fields.2.2.2.2.2.1]
      · rw [ihc.2.2.2.2.2.2.2.1, hs4fields.2.2.2.2.2.2.1]
      · rw [ihc.2.2.2.2.2.2.2.2, hs4fields.2.2.2.2.2.2.2]

/-! ### The reconciliation pass -/

lemma probe_closed (cfg : PoolOptions T) (s : PoolState T) (h : s.closedToken = true) :
    probe cfg s = { s with closedToken := false } := by
  unfold probe
  rw [if_pos h]

lemma probe_fast (cfg : PoolOptions T) (s : PoolState T) (htok : s.closedToken = false)
    (heq : (s.pool.length : Int) = cfg.connections) :
    probe cfg s = reportSize cfg (s.pool.length : Int) s := by
  unfold probe
  rw [if_neg (by simp [htok])]
  simp only [Size]
  rw [if_pos heq]

lemma probe_slow (cfg : PoolOptions T) (s : PoolState T) (htok : s.closedToken = false)
    (hne : ¬ (s.pool.length : Int) = cfg.connections) :
    probe cfg s =
      connectLoop cfg (cfg.connections - (s.pool.length : Int)).toNat
        (match cfg.healthy with
         | none => reportSize cfg (s.pool.length : Int) s
         | some hf =>
           healthLoop cfg hf s.pool.length 0 0
             (reportSize cfg (s.pool.length : Int) s)) := by
  unfold probe
  rw [if_neg (by simp [htok])]
  simp only [Size]
  rw [if_neg hne]

/-- The combined effect of one non-fast-path reconciliation pass. -/
lemma probe_slow_spec (cfg : PoolOptions T) (s : PoolState T)
    (htok : s.closedToken = false)
    (hne : ¬ (s.pool.length : Int) = cfg.connections) :
    (probe cfg s).pool =
      (match cfg.healthy with
       | none => s.pool
       | some hf => s.pool.filter hf) ++
      (List.range (cfg.connections - (s.pool.length : Int)).toNat).filterMap
        (fun k => cfg.connect (s.seed + k)) ∧
    (probe cfg s).seed = s.seed + (cfg.connections - (s.pool.length : Int)).toNat ∧
    (probe cfg s).closedConns =
      s.closedConns ++
        (match cfg.healthy with
         | none => []
         | some hf => s.pool.filter (fun c => ! hf c)) ∧
    (probe cfg s).errorLogs =
      s.errorLogs +
        (match cfg.healthy with
         | none => 0
         | some hf =>
           (s.pool.filter (fun c => ! hf c)).length +
             ((s.pool.filter (fun c => ! hf c)).filter cfg.closeErr).length) +
        ((List.range (cfg.connections - (s.pool.length : Int)).toNat).filter
          (fun k => (cfg.connect (s.seed + k)).isNone)).length ∧
    (probe cfg s).connectionErrors =
      s.connectionErrors +
        (if cfg.metricsPresent = true ∧ cfg.metricsConnectionErrors = true then
          (match cfg.healthy with
           | none => 0
           | some hf => (s.pool.filter (fun c => ! hf c)).length) +
            ((List.range (cfg.connections - (s.pool.length : Int)).toNat).filter
              (fun k => (cfg.connect (s.seed + k)).isNone)).length
         else 0) := by
  rw [probe_slow cfg s htok hne]
  have hsz := reportSize_eq cfg ((s.pool.length : Nat) : Int) s
  cases hh : cfg.healthy with
  | none =>
    simp only [hh]
    rw [connectLoop_pool, connectLoop_seed, connectLoop_errorLogs,
      connectLoop_connectionErrors]
    have h4 := connectLoop_untouched cfg
      (cfg.connections - (s.pool.length : Int)).toNat
      (reportSize cfg ((s.pool.length : Nat) : Int) s)
    rw [hsz]
    refine ⟨by simp, by simp, ?_, by simp, ?_⟩
    · rw [hsz] at h4
      simpa using h4.2.2.2.1
    · simp
  | some hf =>
    simp only [hh]
    have hpool1 : (reportSize cfg ((s.pool.length : Nat) : Int) s).pool = s.pool := by
      rw [hsz]
    have hspec := healthLoop_spec cfg hf
      (reportSize cfg ((s.pool.length : Nat) : Int) s).pool [] 0
      (reportSize cfg ((s.pool.length : Nat) : Int) s) (by simp)
    simp only [List.length_nil, List.nil_append, Nat.zero_add] at hspec
    rw [hpool1] at hspec
    rw [connectLoop_pool, connectLoop_seed, connectLoop_errorLogs,
      connectLoop_connectionErrors]
    have h4 := connectLoop_untouched cfg
      (cfg.connections - (s.pool.length : Int)).toNat
      (healthLoop cfg hf s.pool.length 0 0
        (reportSize cfg ((s.pool.length : Nat) : Int) s))
    refine ⟨?_, ?_, ?_, ?_, ?_⟩
    · rw [hspec.1, hspec.2.2.2.2.2.1, hsz]
    · rw [hspec.2.2.2.2.2.1, hsz]
    · rw [h4.2.2.2.1, hspec.2.1, hsz]
    · rw [hspec.2.2.2.1, hspec.2.2.2.2.2.1, hsz]
      simp
      omega
    · rw [hspec.2.2.1, hspec.2.2.2.2.2.1, hsz]
      simp only
      split
      · omega
      · omega

lemma length_filterMap_of_isSome {α β : Type} (f : α → Option β) (l : List α)
    (h : ∀ a ∈ l, (f a).isSome = true) : (l.filterMap f).length = l.length := by
  induction l with
  | nil => rfl
  | cons a l ih =>
    cases hfa : f a with
    | none =>
      exfalso
      have ha := h a (by simp)
      rw [hfa] at ha
      simp at ha
    | some b =>
      simp only [List.filterMap_cons, hfa, List.length_cons]
      rw [ih (fun x hx => h x (by simp [hx]))]

/-- C1 (amended): in a pass that takes neither the closed path nor the
fast path, the replenishment deficit is the target count minus the
registry size measured at the START of the pass (before health eviction,
clamped at zero), the connect factory is invoked exactly once per unit of
that deficit (the factory-invocation counter advances by exactly the
deficit), every successful connection is appended after the surviving
registry even when other units fail (the pass never aborts), and every
factory failure adds one error-log line and — when the error counter is
wired — one error-metric increment. -/
theorem c1_deficit_before_eviction (cfg : PoolOptions T) (s : PoolState T)
    (htok : s.closedToken = false)
    (hne : ¬ (s.pool.length : Int) = cfg.connections) :
    (probe cfg s).seed = s.seed + (cfg.connections - (s.pool.length : Int)).toNat ∧
    (probe cfg s).pool =
      (match cfg.healthy with
       | none => s.pool
       | some hf => s.pool.filter hf) ++
      (List.range (cfg.connections - (s.pool.length : Int)).toNat).filterMap
        (fun k => cfg.connect (s.seed + k)) ∧
    (probe cfg s).errorLogs =
      s.errorLogs +
        (match cfg.healthy with
         | none => 0
         | some hf =>
           (s.pool.filter (fun c => ! hf c)).length +
             ((s.pool.filter (fun c => ! hf c)).filter cfg.closeErr).length) +
        ((List.range (cfg.connections - (s.pool.length : Int)).toNat).filter
          (fun k => (cfg.connect (s.seed + k)).isNone)).length ∧
    (probe cfg s).connectionErrors =
      s.connectionErrors +
        (if cfg.metricsPresent = true ∧ cfg.metricsConnectionErrors = true then
          (match cfg.healthy with
           | none => 0
           | some hf => (s.pool.filter (fun c => ! hf c)).length) +
            ((List.range (cfg.connections - (s.pool.length : Int)).toNat).filter
              (fun k => (cfg.connect (s.seed + k)).isNone)).length
         else 0) := by
  have h := probe_slow_spec cfg s htok hne
  exact ⟨h.2.1, h.1, h.2.2.2.1, h.2.2.2.2⟩

/-- Witness for C1 at target 2 with the single unhealthy connection `99`:
the pass invokes the factory once (deficit 2 − 1 = 1). -/
theorem c1_deficit_before_eviction_witness :
    (probe cfgA stUnhealthy).seed =
      stUnhealthy.seed +
        (cfgA.connections - (stUnhealthy.pool.length : Int)).toNat :=
  (c1_deficit_before_eviction cfgA stUnhealthy rfl (by decide)).1

/-- Counterexample to C1 as stated: with target 2 and one unhealthy
connection, eviction leaves 0 connections, so the claimed deficit
(target − size AFTER eviction) is 2, yet the factory is invoked exactly
once — the code computes the deficit from the size read BEFORE
eviction. -/
theorem c1_counterexample :
    (probe cfgA stUnhealthy).seed = stUnhealthy.seed + 1 ∧
    (match cfgA.healthy with
     | none => stUnhealthy.pool
     | some hf => stUnhealthy.pool.filter hf).length = 0 ∧
    cfgA.connections = 2 ∧
    ¬ (probe cfgA stUnhealthy).seed =
        stUnhealthy.seed +
          (cfgA.connections -
            ((match cfgA.healthy with
              | none => stUnhealthy.pool
              | some hf => stUnhealthy.pool.filter hf).length : Int)).toNat := by
  decide

/-- C2 (amended): in a pass that starts with the registry size different
from the target (and no pending closed token), a connection the
configured health predicate rejects is removed from the registry by that
pass and its close operation is invoked exactly once; a pass that starts
at target size takes the fast path and performs no health eviction at
all (see the counterexample). -/
theorem c2_unhealthy_evicted [DecidableEq T] (cfg : PoolOptions T) (hf : T → Bool)
    (s : PoolState T) (c : T) (hhf : cfg.healthy = some hf)
    (htok : s.closedToken = false)
    (hne : ¬ (s.pool.length : Int) = cfg.connections)
    (hcun : hf c = false) (hcount : s.pool.count c = 1)
    (hfresh : ∀ k, cfg.connect k ≠ some c) :
    c ∉ (probe cfg s).pool ∧
    (probe cfg s).closedConns.count c = s.closedConns.count c + 1 := by
  have h := probe_slow_spec cfg s htok hne
  constructor
  · rw [h.1, hhf]
    intro hmem
    rcases List.mem_append.mp hmem with hm | hm
    · have := List.of_mem_filter hm
      rw [hcun] at this
      exact absurd this (by simp)
    · rcases List.mem_filterMap.mp hm with ⟨k, _, hk⟩
      exact hfresh (s.seed + k) hk
  · rw [h.2.2.1, hhf]
    dsimp only
    simp only [List.count_append]
    have : List.count c (s.pool.filter (fun x => ! hf x)) = 1 := by
      rw [List.count_filter (by simp [hcun])]
      exact hcount
    rw [this]

/-- Witness for C2: with target 2 and the single unhealthy connection
`99`, the pass removes and closes it. -/
theorem c2_unhealthy_evicted_witness :
    99 ∉ (probe cfgA stUnhealthy).pool ∧
    (probe cfgA stUnhealthy).closedConns.count 99 =
      stUnhealthy.closedConns.count 99 + 1 :=
  c2_unhealthy_evicted cfgA (fun c => decide (c < 50)) stUnhealthy 99 rfl rfl
    (by decide) (by decide) (by decide)
    (fun k h => by
      simp only [cfgQ, cfgF, cfgA, Option.some.injEq] at h
      omega)

/-- Counterexample to C2 as stated: with target 1 the registry `[99]` is
already at target size, so the pass takes the fast path — the unhealthy
connection `99` stays in the registry and its close operation is never
invoked, contradicting removal "regardless of whether the registry size
equals the target count". -/
theorem c2_counterexample :
    (match cfgF.healthy with
     | some hf => hf 99
     | none => true) = false ∧
    (stUnhealthy.pool.length : Int) = cfgF.connections ∧
    stUnhealthy.closedToken = false ∧
    99 ∈ (probe cfgF stUnhealthy).pool ∧
    (probe cfgF stUnhealthy).closedConns.count 99 = 0 := by
  decide

/-- C7: construction runs one reconciliation pass synchronously, so for a
valid configuration whose connect factory always succeeds, the registry
size equals the target count the moment `New` returns. -/
theorem c7_construction_populates (cfg : PoolOptions T)
    (hv : validate cfg = none) (hall : ∀ k, (cfg.connect k).isSome = true) :
    ∃ s, New cfg = Except.ok s ∧ (Size s : Int) = cfg.connections := by
  have hpos : 1 ≤ cfg.connections := by
    unfold validate at hv
    split at hv
    · exact absurd hv (by simp)
    · split at hv
      · exact absurd hv (by simp)
      · omega
  refine ⟨probe cfg (initialState T), ?_, ?_⟩
  · unfold New
    rw [hv]
  · have h0 : (initialState T).pool = ([] : List T) := rfl
    have hseed : (initialState T).seed = 0 := rfl
    have hne : ¬ (((initialState T).pool.length : Int)) = cfg.connections := by
      rw [h0]
      simp only [List.length_nil, Int.natCast_zero]
      omega
    have h := (probe_slow_spec cfg (initialState T) rfl hne).1
    unfold Size
    rw [h, List.length_append, h0, hseed]
    rw [length_filterMap_of_isSome _ _ (fun a _ => hall _), List.length_range]
    cases hh : cfg.healthy with
    | none =>
      dsimp only
      simp only [List.length_nil]
      omega
    | some hf =>
      dsimp only
      simp only [List.filter_nil, List.length_nil]
      omega

/-- Witness for C7: `New cfgA` returns a pool of size 2. -/
theorem c7_construction_populates_witness :
    ∃ s, New cfgA = Except.ok s ∧ (Size s : Int) = cfgA.connections :=
  c7_construction_populates cfgA rfl (fun _ => rfl)

/-! ### The retrieval index -/

lemma goIdx_of_lt (n len : Nat) (hn : n < 2 ^ 63) :
    goIdx n len = ((n % len : Nat) : Int) := by
  unfold goIdx toInt64
  rw [if_pos hn]
  rfl

lemma goIdx_bounds (n len : Nat) (hn : n < 2 ^ 63) (hl : 0 < len) :
    0 ≤ goIdx n len ∧ (goIdx n len).toNat < len ∧ (goIdx n len).toNat = n % len := by
  rw [goIdx_of_lt n len hn]
  refine ⟨by positivity, ?_, by omega⟩
  rw [Int.toNat_natCast]
  exact Nat.mod_lt n hl

lemma Next_empty (cfg : PoolOptions T) (s : PoolState T) (h : s.pool.length = 0) :
    Next cfg s = GoResult.ok (none, s) := by
  unfold Next
  simp only [Size]
  rw [if_pos h]

lemma ExNext_empty (cfg : PoolOptions T) (s : PoolState T) (h : s.pool.length = 0) :
    ExNext cfg s = GoResult.ok (none, s) := by
  unfold ExNext
  simp only [Size]
  rw [if_pos h]

lemma Next_ok_some_inv (cfg : PoolOptions T) (s : PoolState T) (c : T)
    (s' : PoolState T) (h : Next cfg s = GoResult.ok (some c, s')) :
    s.pool.length ≠ 0 ∧
    s' = reportRetrieval cfg { s with next := (s.next + 1) % 2 ^ 64 } ∧
    s.pool.get? ((goIdx ((s.next + 1) % 2 ^ 64) s.pool.length).toNat) = some c := by
  unfold Next at h
  simp only [Size] at h
  by_cases h0 : s.pool.length = 0
  · rw [if_pos h0] at h
    exact absurd h (by simp)
  · rw [if_neg h0] at h
    split at h
    · rename_i hcond
      injection h with h
      injection h with h1 h2
      injection h1 with h1
      refine ⟨h0, h2.symm, ?_⟩
      rw [List.get?_eq_get hcond.2, h1]
    · exact absurd h (by simp)

lemma ExNext_ok_some_inv (cfg : PoolOptions T) (s : PoolState T) (c : T)
    (s' : PoolState T) (h : ExNext cfg s = GoResult.ok (some c, s')) :
    s.pool.length ≠ 0 ∧
    (goIdx ((s.next + 1) % 2 ^ 64) s.pool.length).toNat < s.pool.length ∧
    s' = removeFromPool ((goIdx ((s.next + 1) % 2 ^ 64) s.pool.length).toNat)
          (reportRetrieval cfg { s with next := (s.next + 1) % 2 ^ 64 }) ∧
    s.pool.get? ((goIdx ((s.next + 1) % 2 ^ 64) s.pool.length).toNat) = some c := by
  unfold ExNext at h
  simp only [Size] at h
  by_cases h0 : s.pool.length = 0
  · rw [if_pos h0] at h
    exact absurd h (by simp)
  · rw [if_neg h0] at h
    split at h
    · rename_i hcond
      injection h with h
      injection h with h1 h2
      injection h1 with h1
      refine ⟨h0, hcond.2, h2.symm, ?_⟩
      rw [List.get?_eq_get hcond.2, h1]
    · exact absurd h (by simp)

lemma ExNext_ok_none_inv (cfg : PoolOptions T) (s : PoolState T)
    (s' : PoolState T) (h : ExNext cfg s = GoResult.ok (none, s')) :
    s.pool.length = 0 ∧ s' = s := by
  unfold ExNext at h
  simp only [Size] at h
  by_cases h0 : s.pool.length = 0
  · rw [if_pos h0] at h
    injection h with h
    injection h with h1 h2
    exact ⟨h0, h2.symm⟩
  · rw [if_neg h0] at h
    split at h
    · exact absurd h (by simp)
    · exact absurd h (by simp)

lemma Next_ok_pool (cfg : PoolOptions T) (s : PoolState T) (r : Option T)
    (s' : PoolState T) (h : Next cfg s = GoResult.ok (r, s')) :
    s'.pool = s.pool := by
  unfold Next at h
  simp only [Size] at h
  by_cases h0 : s.pool.length = 0
  · rw [if_pos h0] at h
    injection h with h
    injection h with h1 h2
    rw [← h2]
  · rw [if_neg h0] at h
    split at h
    · injection h with h
      injection h with h1 h2
      rw [← h2, reportRetrieval_eq]
    · exact absurd h (by simp)

lemma get_not_mem_eraseIdx [DecidableEq T] (l : List T) (i : Nat) (hi : i < l.length)
    (hnd : l.Nodup) : l.get ⟨i, hi⟩ ∉ l.eraseIdx i := by
  have hdec : l = l.take i ++ l.get ⟨i, hi⟩ :: l.drop (i + 1) := by
    conv_lhs => rw [← List.take_append_drop i l]
    rw [List.drop_eq_get_cons hi]
  have herase : l.eraseIdx i = l.take i ++ l.drop (i + 1) :=
    List.eraseIdx_eq_take_drop_succ l i
  have hcount : l.count (l.get ⟨i, hi⟩) = 1 :=
    List.count_eq_one_of_mem hnd (List.get_mem l i hi)
  have hcount2 :
      (l.take i ++ l.get ⟨i, hi⟩ :: l.drop (i + 1)).count (l.get ⟨i, hi⟩) = 1 := by
    rw [← hdec]
    exact hcount
  rw [List.count_append, List.count_cons_self] at hcount2
  intro hmem
  have hpos : 0 < (l.eraseIdx i).count (l.get ⟨i, hi⟩) :=
    List.count_pos_iff_mem.mpr hmem
  rw [herase, List.count_append] at hpos
  omega


/-- C10 (amended): the registry index computed in `Next` and `ExNext` —
the incremented cursor cast to a signed 64-bit integer, taken with Go
truncated `%` against the registry size `n` — lies in `[0, n)` whenever
the incremented cursor value is below `2^63`; once the cursor reaches
`2^63` the cast is negative and the computed index can be negative,
making the access out of bounds (see the counterexample). -/
theorem c10_index_in_bounds (n len : Nat) (hn : n < 2 ^ 63) (hl : 0 < len) :
    0 ≤ goIdx n len ∧ (goIdx n len).toNat < len := by
  have h := goIdx_bounds n len hn hl
  exact ⟨h.1, h.2.1⟩

/-- Witness for C10 at a concrete cursor and size. -/
theorem c10_index_in_bounds_witness :
    0 ≤ goIdx 12345 3 ∧ (goIdx 12345 3).toNat < 3 :=
  c10_index_in_bounds 12345 3 (by decide) (by decide)

/-- Counterexample to C10 as stated: at cursor value `2^63` and registry
size 3 the computed index is `-2`, out of `[0, 3)`, and both retrieval
operations panic on the out-of-range slice access. -/
theorem c10_counterexample :
    goIdx (2 ^ 63) 3 = -2 ∧
    ¬ 0 ≤ goIdx (2 ^ 63) 3 ∧
    Next cfgA stNeg = GoResult.panic ∧
    ExNext cfgA stNeg = GoResult.panic := by
  decide

/-- C4: a successful `ExNext` removes exactly the connection it returns —
the registry shrinks by one, the remainder keeps its relative order
(erasure at one index), and for a duplicate-free registry the returned
connection is no longer present, so it cannot be handed out again before
being returned; `Return` then re-appends it, restoring the previous size
and making it retrievable again; on an empty pool `ExNext` yields the
absence result. -/
theorem c4_exnext_return [DecidableEq T] (cfg : PoolOptions T)
    (s sE s' : PoolState T) (c : T)
    (h : ExNext cfg s = GoResult.ok (some c, s')) (hnd : s.pool.Nodup)
    (hE : sE.pool.length = 0) :
    (∃ idx, idx < s.pool.length ∧ s.pool.get? idx = some c ∧
      s'.pool = s.pool.eraseIdx idx) ∧
    s'.pool.length + 1 = s.pool.length ∧
    c ∉ s'.pool ∧
    (Return s' c).pool = s'.pool ++ [c] ∧
    (Return s' c).pool.length = s.pool.length ∧
    c ∈ (Return s' c).pool ∧
    ExNext cfg sE = GoResult.ok (none, sE) := by
  obtain ⟨h0, hlt, hs', hget⟩ := ExNext_ok_some_inv cfg s c s' h
  set idx := (goIdx ((s.next + 1) % 2 ^ 64) s.pool.length).toNat with hidx
  have hpool : s'.pool = s.pool.eraseIdx idx := by
    rw [hs']
    unfold removeFromPool
    rw [reportRetrieval_eq]
  have hcget : s.pool.get ⟨idx, hlt⟩ = c := by
    have := List.get?_eq_get hlt
    rw [this] at hget
    injection hget
  refine ⟨⟨idx, hlt, hget, hpool⟩, ?_, ?_, rfl, ?_, ?_, ExNext_empty cfg sE hE⟩
  · rw [hpool, List.length_eraseIdx, if_pos hlt]
    omega
  · rw [hpool, ← hcget]
    exact get_not_mem_eraseIdx s.pool idx hlt hnd
  · unfold Return
    simp only [List.length_append, List.length_cons, List.length_nil]
    rw [hpool, List.length_eraseIdx, if_pos hlt]
    omega
  · unfold Return
    simp

/-- Witness for C4: from the two-connection registry `[7, 8]`, `ExNext`
returns `8` and removes it; `Return` restores the registry. -/
theorem c4_exnext_return_witness :
    (∃ idx, idx < stTwo.pool.length ∧ stTwo.pool.get? idx = some 8 ∧
      (removeFromPool 1 (reportRetrieval cfgA { stTwo with next := 1 })).pool =
        stTwo.pool.eraseIdx idx) ∧
    (removeFromPool 1 (reportRetrieval cfgA { stTwo with next := 1 })).pool.length + 1 =
      stTwo.pool.length ∧
    8 ∉ (removeFromPool 1 (reportRetrieval cfgA { stTwo with next := 1 })).pool ∧
    (Return (removeFromPool 1 (reportRetrieval cfgA { stTwo with next := 1 })) 8).pool =
      (removeFromPool 1 (reportRetrieval cfgA { stTwo with next := 1 })).pool ++ [8] ∧
    (Return (removeFromPool 1 (reportRetrieval cfgA { stTwo with next := 1 })) 8).pool.length =
      stTwo.pool.length ∧
    8 ∈ (Return (removeFromPool 1 (reportRetrieval cfgA { stTwo with next := 1 })) 8).pool ∧
    ExNext cfgA (initialState Nat) = GoResult.ok (none, initialState Nat) :=
  c4_exnext_return cfgA stTwo (initialState Nat)
    (removeFromPool 1 (reportRetrieval cfgA { stTwo with next := 1 })) 8
    (by decide) (by decide) (by decide)

/-- C8 (amended): when a metrics sink with a retrievals counter is
configured, every successful `Next` and every successful `ExNext`
increments the retrievals counter by exactly 1, but a call against an
empty pool returns the absence result with the state — and hence the
counter — unchanged (the code returns before `reportRetrieval`). -/
theorem c8_retrievals_counter (cfg : PoolOptions T)
    (hm : cfg.metricsPresent = true) (hr : cfg.metricsRetrievals = true)
    (sE s₁ s₂ s₁' s₂' : PoolState T) (c₁ c₂ : T)
    (hE : sE.pool.length = 0)
    (h₁ : Next cfg s₁ = GoResult.ok (some c₁, s₁'))
    (h₂ : ExNext cfg s₂ = GoResult.ok (some c₂, s₂')) :
    s₁'.retrievals = s₁.retrievals + 1 ∧
    s₂'.retrievals = s₂.retrievals + 1 ∧
    Next cfg sE = GoResult.ok (none, sE) ∧
    ExNext cfg sE = GoResult.ok (none, sE) := by
  refine ⟨?_, ?_, Next_empty cfg sE hE, ExNext_empty cfg sE hE⟩
  · obtain ⟨h0, hs', hget⟩ := Next_ok_some_inv cfg s₁ c₁ s₁' h₁
    rw [hs', reportRetrieval_eq]
    simp [hm, hr]
  · obtain ⟨h0, hlt, hs', hget⟩ := ExNext_ok_some_inv cfg s₂ c₂ s₂' h₂
    rw [hs']
    unfold removeFromPool
    rw [reportRetrieval_eq]
    simp [hm, hr]

/-- Witness for C8: a successful `Next` and `ExNext` from two-element
registries bump the counter; empty-pool calls return absence. -/
theorem c8_retrievals_counter_witness :
    (reportRetrieval cfgA { stTwo with next := 1 }).retrievals =
      stTwo.retrievals + 1 ∧
    (removeFromPool 1 (reportRetrieval cfgA { stTwo with next := 1 })).retrievals =
      stTwo.retrievals + 1 ∧
    Next cfgA (initialState Nat) = GoResult.ok (none, initialState Nat) ∧
    ExNext cfgA (initialState Nat) = GoResult.ok (none, initialState Nat) :=
  c8_retrievals_counter cfgA rfl rfl (initialState Nat) stTwo stTwo
    (reportRetrieval cfgA { stTwo with next := 1 })
    (removeFromPool 1 (reportRetrieval cfgA { stTwo with next := 1 }))
    8 8 (by decide) (by decide) (by decide)

/-- Counterexample to C8 as stated: with the retrievals counter wired, a
`Next` against an empty pool returns the absence result without touching
the counter — the empty-pool path does not count. -/
theorem c8_counterexample :
    cfgA.metricsPresent = true ∧ cfgA.metricsRetrievals = true ∧
    Next cfgA (initialState Nat) = GoResult.ok (none, initialState Nat) ∧
    ¬ ((match Next cfgA (initialState Nat) with
        | GoResult.ok (_, s') => s'.retrievals
        | GoResult.panic => 0) = (initialState Nat).retrievals + 1) := by
  decide

/-! ### Round-robin arithmetic -/

lemma count_range_mod (N j : Nat) (hN : 0 < N) (hj : j < N) :
    ∀ c : Nat, ((List.range N).map (fun k => (c + k) % N)).count j = 1 := by
  intro c
  induction c with
  | zero =>
    have hmap : (List.range N).map (fun k => (0 + k) % N) = List.range N := by
      have h : ∀ k ∈ List.range N, (0 + k) % N = k := by
        intro k hk
        rw [Nat.zero_add]
        exact Nat.mod_eq_of_lt (List.mem_range.mp hk)
      rw [List.map_congr_left h]
      simp
    rw [hmap]
    exact List.count_eq_one_of_mem (List.nodup_range N) (List.mem_range.mpr hj)
  | succ c ih =>
    obtain ⟨M, hM⟩ : ∃ M, N = M + 1 := ⟨N - 1, by omega⟩
    subst hM
    have hsuccmap : List.map Nat.succ (List.range (M + 1)) =
        List.map Nat.succ (List.range M) ++ [M + 1] := by
      rw [List.range_succ, List.map_append]
      rfl
    have hleft : (List.range (M + 1)).map (fun k => (c + 1 + k) % (M + 1)) =
        ((List.range M).map (fun k => (c + Nat.succ k) % (M + 1))) ++
          [(c + (M + 1)) % (M + 1)] := by
      have h1 : (List.range (M + 1)).map (fun k => (c + 1 + k) % (M + 1)) =
          (List.map Nat.succ (List.range (M + 1))).map (fun k => (c + k) % (M + 1)) := by
        rw [List.map_map]
        exact List.map_congr_left (fun k _ => by
          show (c + 1 + k) % (M + 1) = (c + Nat.succ k) % (M + 1)
          congr 1
          omega)
      rw [h1, hsuccmap, List.map_append, List.map_map]
      rfl
    have hright : (List.range (M + 1)).map (fun k => (c + k) % (M + 1)) =
        ((c + 0) % (M + 1)) ::
          ((List.range M).map (fun k => (c + Nat.succ k) % (M + 1))) := by
      rw [List.range_succ_eq_map, List.map_cons, List.map_map]
      rfl
    have hwrap : (c + (M + 1)) % (M + 1) = (c + 0) % (M + 1) := by
      simp [Nat.add_mod_right]
    rw [hleft, List.count_append, hwrap]
    rw [hright, List.count_cons] at ih
    rw [List.count_singleton]
    omega

lemma count_range_two_mod (N j : Nat) (hN : 0 < N) (hj : j < N) (c : Nat) :
    ((List.range (2 * N)).map (fun k => (c + k) % N)).count j = 2 := by
  have h2 : 2 * N = N + N := by omega
  rw [h2, List.range_add, List.map_append, List.map_map, List.count_append]
  have hshift : ∀ x ∈ List.range N,
      ((fun k => (c + k) % N) ∘ (fun x => N + x)) x = (c + x) % N := by
    intro x _
    show (c + (N + x)) % N = (c + x) % N
    have h : c + (N + x) = c + x + N := by omega
    rw [h, Nat.add_mod_right]
  rw [List.map_congr_left hshift]
  rw [count_range_mod N j hN hj c]

/-! ### Iterated Next calls -/

lemma Next_spec (cfg : PoolOptions T) (s : PoolState T) (h0 : s.pool.length ≠ 0)
    (hcur : s.next + 1 < 2 ^ 63) :
    Next cfg s = GoResult.ok
      (some (s.pool.get ⟨(s.next + 1) % s.pool.length,
        Nat.mod_lt _ (Nat.pos_of_ne_zero h0)⟩),
       reportRetrieval cfg { s with next := s.next + 1 }) := by
  have hm : (s.next + 1) % 2 ^ 64 = s.next + 1 := Nat.mod_eq_of_lt (by omega)
  have hb := goIdx_bounds (s.next + 1) s.pool.length hcur (Nat.pos_of_ne_zero h0)
  unfold Next
  simp only [Size, hm]
  rw [if_neg h0, dif_pos ⟨hb.1, hb.2.1⟩]
  simp only [hb.2.2]

lemma nexts_spec [DecidableEq T] (cfg : PoolOptions T) (m : Nat) : ∀ s : PoolState T,
    s.pool.length ≠ 0 → s.next + m < 2 ^ 63 →
    ∃ cs s₂, nexts cfg m s = GoResult.ok (cs, s₂) ∧
      s₂.pool = s.pool ∧ s₂.next = s.next + m ∧ cs.length = m ∧
      (∀ k, k < m → cs.get? k = s.pool.get? ((s.next + 1 + k) % s.pool.length)) ∧
      (∀ c : T, cs.count c =
        ((List.range m).filter
          (fun k => s.pool.get? ((s.next + 1 + k) % s.pool.length) == some c)).length) := by
  induction m with
  | zero =>
    intro s h0 hcur
    exact ⟨[], s, rfl, rfl, by omega, rfl,
      fun k hk => absurd hk (by omega), fun c => by simp⟩
  | succ m ih =>
    intro s h0 hcur
    have h1 : s.next + 1 < 2 ^ 63 := by omega
    have hpos : 0 < s.pool.length := Nat.pos_of_ne_zero h0
    have hnx := Next_spec cfg s h0 h1
    have hs'pool : (reportRetrieval cfg { s with next := s.next + 1 }).pool = s.pool := by
      rw [reportRetrieval_eq]
    have hs'next : (reportRetrieval cfg { s with next := s.next + 1 }).next =
        s.next + 1 := by
      rw [reportRetrieval_eq]
    obtain ⟨cs', s₂, heq, hpool, hnext, hlen, hget, hcount⟩ :=
      ih (reportRetrieval cfg { s with next := s.next + 1 })
        (by rw [hs'pool]; exact h0) (by rw [hs'next]; omega)
    have hstep : nexts cfg (m + 1) s =
        GoResult.ok
          ((s.pool.get ⟨(s.next + 1) % s.pool.length,
              Nat.mod_lt _ hpos⟩) :: cs', s₂) := by
      simp only [nexts, hnx, heq]
    refine ⟨_, s₂, hstep, by rw [hpool, hs'pool], by rw [hnext, hs'next]; omega,
      by simp [hlen], ?_, ?_⟩
    · intro k hk
      cases k with
      | zero =>
        simp only [List.get?_cons_zero, Nat.add_zero]
        exact (List.get?_eq_get (Nat.mod_lt _ hpos)).symm
      | succ k =>
        simp only [List.get?_cons_succ]
        rw [hget k (by omega), hs'pool, hs'next]
        have : s.next + 1 + 1 + k = s.next + 1 + (k + 1) := by omega
        rw [this]
    · intro c
      have hzero : s.pool.get? ((s.next + 1 + 0) % s.pool.length) =
          some (s.pool.get ⟨(s.next + 1) % s.pool.length, Nat.mod_lt _ hpos⟩) := by
        rw [Nat.add_zero]
        exact List.get?_eq_get (Nat.mod_lt _ hpos)
      have hpred : ∀ k ∈ List.range m,
          ((fun k => s.pool.get? ((s.next + 1 + k) % s.pool.length) == some c) ∘
            Nat.succ) k =
          (fun k =>
            (reportRetrieval cfg { s with next := s.next + 1 }).pool.get?
              (((reportRetrieval cfg { s with next := s.next + 1 }).next + 1 + k) %
                (reportRetrieval cfg { s with next := s.next + 1 }).pool.length) ==
              some c) k := by
        intro k _
        show (s.pool.get? ((s.next + 1 + Nat.succ k) % s.pool.length) == some c) = _
        rw [hs'pool, hs'next]
        have harith : s.next + 1 + Nat.succ k = s.next + 1 + 1 + k := by omega
        rw [harith]
      rw [List.count_cons, hcount c, List.range_succ_eq_map]
      cases hbc : (s.pool.get ⟨(s.next + 1) % s.pool.length, Nat.mod_lt _ hpos⟩ == c) with
      | true =>
        have hp0 : ((fun k =>
            s.pool.get? ((s.next + 1 + k) % s.pool.length) == some c) 0) = true := by
          show (s.pool.get? ((s.next + 1 + 0) % s.pool.length) == some c) = true
          rw [hzero]
          simp only [beq_iff_eq, Option.some.injEq]
          exact beq_iff_eq.mp hbc
        rw [@List.filter_cons_of_pos Nat
          (fun k => s.pool.get? ((s.next + 1 + k) % s.pool.length) == some c) 0
          (List.map Nat.succ (List.range m)) hp0,
          List.filter_map, List.filter_congr hpred]
        simp [hbc]
      | false =>
        have hp0 : ¬ ((fun k =>
            s.pool.get? ((s.next + 1 + k) % s.pool.length) == some c) 0) = true := by
          show ¬ (s.pool.get? ((s.next + 1 + 0) % s.pool.length) == some c) = true
          rw [hzero]
          simp only [beq_iff_eq, Option.some.injEq]
          intro hcc
          rw [hcc] at hbc
          simp at hbc
        rw [@List.filter_cons_of_neg Nat
          (fun k => s.pool.get? ((s.next + 1 + k) % s.pool.length) == some c) 0
          (List.map Nat.succ (List.range m)) hp0,
          List.filter_map, List.filter_congr hpred]
        simp [hbc]

/-- C3 (amended): for a pool of size `N ≥ 1` whose cursor stays below
`2^63` across the calls considered, each `Next` increments the shared
cursor and returns the connection at position `cursor mod N` while
leaving the registry unchanged, and `2N` consecutive single-threaded
calls return the positions in round-robin order, each of the `N`
positions exactly twice (stated via counts for a duplicate-free
registry); on a pool of size 0, `Next` returns the absence result
without panicking. Once the cursor reaches `2^63` the signed cast makes
the computed index differ from `cursor mod N` (see the
counterexample). -/
theorem c3_next_round_robin [DecidableEq T] (cfg : PoolOptions T)
    (s sE : PoolState T) (N : Nat) (hN : s.pool.length = N) (h1 : 1 ≤ N)
    (hcur : s.next + 2 * N < 2 ^ 63) (hnd : s.pool.Nodup)
    (hE : sE.pool.length = 0) :
    (∃ c s', Next cfg s = GoResult.ok (some c, s') ∧
      s.pool.get? ((s.next + 1) % N) = some c ∧
      s'.pool = s.pool ∧ s'.next = s.next + 1) ∧
    (∃ cs s₂, nexts cfg (2 * N) s = GoResult.ok (cs, s₂) ∧ s₂.pool = s.pool ∧
      s₂.next = s.next + 2 * N ∧ cs.length = 2 * N ∧
      (∀ k, k < 2 * N → cs.get? k = s.pool.get? ((s.next + 1 + k) % N)) ∧
      (∀ j c, j < N → s.pool.get? j = some c → cs.count c = 2)) ∧
    Next cfg sE = GoResult.ok (none, sE) := by
  subst hN
  have h0 : s.pool.length ≠ 0 := by omega
  have hpos : 0 < s.pool.length := by omega
  refine ⟨?_, ?_, Next_empty cfg sE hE⟩
  · have hnx := Next_spec cfg s h0 (by omega)
    refine ⟨_, _, hnx, ?_, ?_, ?_⟩
    · exact List.get?_eq_get (Nat.mod_lt _ hpos)
    · rw [reportRetrieval_eq]
    · rw [reportRetrieval_eq]
  · obtain ⟨cs, s₂, heq, hpool, hnext, hlen, hget, hcnt⟩ :=
      nexts_spec cfg (2 * s.pool.length) s h0 hcur
    refine ⟨cs, s₂, heq, hpool, hnext, hlen, hget, ?_⟩
    intro j c hj hjc
    have hq : ∀ k ∈ List.range (2 * s.pool.length),
        ((fun k => s.pool.get? ((s.next + 1 + k) % s.pool.length) == some c) k) =
        ((fun k => (s.next + 1 + k) % s.pool.length == j) k) := by
      intro k _
      show (s.pool.get? ((s.next + 1 + k) % s.pool.length) == some c) =
        ((s.next + 1 + k) % s.pool.length == j)
      by_cases hij : (s.next + 1 + k) % s.pool.length = j
      · rw [hij, hjc]
        simp
      · have hne2 : s.pool.get? ((s.next + 1 + k) % s.pool.length) ≠ some c := by
          intro hcc
          exact hij (List.get?_inj (Nat.mod_lt _ hpos) hnd (by rw [hcc, hjc]))
        rw [List.get?_eq_getElem?] at hne2
        simp [hne2, hij]
    have h2 := count_range_two_mod s.pool.length j hpos hj (s.next + 1)
    rw [List.count_eq_countP, List.countP_map] at h2
    simp only [Function.comp_def] at h2
    rw [List.countP_eq_length_filter] at h2
    rw [hcnt c, List.filter_congr hq]
    exact h2

/-- Witness for C3 at the two-connection registry `[7, 8]` with a fresh
cursor. -/
theorem c3_next_round_robin_witness :
    (∃ c s', Next cfgA stTwo = GoResult.ok (some c, s') ∧
      stTwo.pool.get? ((stTwo.next + 1) % 2) = some c ∧
      s'.pool = stTwo.pool ∧ s'.next = stTwo.next + 1) ∧
    (∃ cs s₂, nexts cfgA (2 * 2) stTwo = GoResult.ok (cs, s₂) ∧
      s₂.pool = stTwo.pool ∧ s₂.next = stTwo.next + 2 * 2 ∧ cs.length = 2 * 2 ∧
      (∀ k, k < 2 * 2 → cs.get? k = stTwo.pool.get? ((stTwo.next + 1 + k) % 2)) ∧
      (∀ j c, j < 2 → stTwo.pool.get? j = some c → cs.count c = 2)) ∧
    Next cfgA (initialState Nat) = GoResult.ok (none, initialState Nat) :=
  c3_next_round_robin cfgA stTwo (initialState Nat) 2 rfl (by decide) (by decide)
    (by decide) rfl

/-- Counterexample to C3 as stated: at cursor `2^64 - 4` over the
registry `[10, 20, 30]`, the incremented cursor modulo the size picks
position 1 (connection `20`), but `int(n) % 3 = (-3) % 3 = 0`, so `Next`
returns the connection at position 0 (`10`). -/
theorem c3_counterexample :
    (match Next cfgA stWrap with
     | GoResult.ok (some c, _) => c
     | GoResult.ok (none, _) => 0
     | GoResult.panic => 0) = 10 ∧
    stWrap.pool.get? (((stWrap.next + 1) % 2 ^ 64) % stWrap.pool.length) =
      some 20 ∧
    ¬ (10 : Nat) = 20 := by
  decide

/-! ### Registry length bound along operation traces -/

lemma probe_length_le (cfg : PoolOptions T) (s : PoolState T)
    (h : s.pool.length ≤ cfg.connections.toNat) :
    (probe cfg s).pool.length ≤ cfg.connections.toNat := by
  by_cases htok : s.closedToken = true
  · rw [probe_closed cfg s htok]
    exact h
  · have htok' : s.closedToken = false := by
      cases hb : s.closedToken
      · rfl
      · exact absurd hb htok
    by_cases heq : (s.pool.length : Int) = cfg.connections
    · rw [probe_fast cfg s htok' heq, reportSize_eq]
      exact h
    · have hspec := (probe_slow_spec cfg s htok' heq).1
      rw [hspec, List.length_append]
      have hev : (match cfg.healthy with
          | none => s.pool
          | some hf => s.pool.filter hf).length ≤ s.pool.length := by
        cases cfg.healthy
        · exact le_refl _
        · exact List.length_filter_le _ _
      have hnew : ((List.range (cfg.connections - (s.pool.length : Int)).toNat).filterMap
          (fun k => cfg.connect (s.seed + k))).length ≤
          (cfg.connections - (s.pool.length : Int)).toNat := by
        calc ((List.range (cfg.connections - (s.pool.length : Int)).toNat).filterMap
            (fun k => cfg.connect (s.seed + k))).length
            ≤ (List.range (cfg.connections - (s.pool.length : Int)).toNat).length :=
              List.length_filterMap_le _ _
          _ = (cfg.connections - (s.pool.length : Int)).toNat := List.length_range _
      omega

lemma Close_pool_cases (cfg : PoolOptions T) (s : PoolState T) :
    (Close cfg s).pool = [] ∨ (Close cfg s).pool = s.pool := by
  cases hb : s.closerDone
  · left
    rw [Close_spec cfg s hb]
  · right
    rw [Close_of_closerDone cfg s hb]

lemma legalRun_bound (cfg : PoolOptions T) (ops : List (Op T)) :
    ∀ (o : Nat) (s : PoolState T), legalRun cfg o ops s = true →
    s.pool.length + o ≤ cfg.connections.toNat →
    ∃ s' o', runPool cfg ops s = GoResult.ok s' ∧
      s'.pool.length + o' ≤ cfg.connections.toNat := by
  induction ops with
  | nil =>
    intro o s _ hb
    exact ⟨s, o, rfl, hb⟩
  | cons op ops ih =>
    intro o s hleg hb
    cases op with
    | next =>
      cases hnx : Next cfg s with
      | panic =>
        rw [legalRun, hnx] at hleg
        exact absurd hleg (by simp)
      | ok rs =>
        obtain ⟨r, s'⟩ := rs
        rw [legalRun, hnx] at hleg
        have hps : s'.pool = s.pool := Next_ok_pool cfg s r s' hnx
        obtain ⟨s'', o', hrun, hb'⟩ := ih o s' hleg (by rw [hps]; exact hb)
        exact ⟨s'', o', by simp only [runPool, stepOp, hnx]; exact hrun, hb'⟩
    | exNext =>
      cases hex : ExNext cfg s with
      | panic =>
        rw [legalRun, hex] at hleg
        exact absurd hleg (by simp)
      | ok rs =>
        obtain ⟨r, s'⟩ := rs
        cases r with
        | none =>
          rw [legalRun, hex] at hleg
          obtain ⟨h0, hs⟩ := ExNext_ok_none_inv cfg s s' hex
          obtain ⟨s'', o', hrun, hb'⟩ := ih o s' hleg (by rw [hs]; exact hb)
          exact ⟨s'', o', by simp only [runPool, stepOp, hex]; exact hrun, hb'⟩
        | some c =>
          rw [legalRun, hex] at hleg
          obtain ⟨h0, hlt, hs, hget⟩ := ExNext_ok_some_inv cfg s c s' hex
          have hlen : s'.pool.length + 1 = s.pool.length := by
            rw [hs]
            unfold removeFromPool
            rw [reportRetrieval_eq]
            simp only [List.length_eraseIdx, if_pos hlt]
            omega
          obtain ⟨s'', o', hrun, hb'⟩ := ih (o + 1) s' hleg (by omega)
          exact ⟨s'', o', by simp only [runPool, stepOp, hex]; exact hrun, hb'⟩
    | ret c =>
      rw [legalRun] at hleg
      rw [Bool.and_eq_true] at hleg
      have ho : 0 < o := by
        have := hleg.1
        simpa using this
      have hlen : (Return s c).pool.length = s.pool.length + 1 := by
        unfold Return
        simp
      obtain ⟨s'', o', hrun, hb'⟩ := ih (o - 1) (Return s c) hleg.2 (by omega)
      exact ⟨s'', o', by simp only [runPool, stepOp]; exact hrun, hb'⟩
    | probing =>
      rw [legalRun] at hleg
      rw [Bool.and_eq_true] at hleg
      have ho : o = 0 := by
        have := hleg.1
        simpa using this
      subst ho
      have hp := probe_length_le cfg s (by omega)
      obtain ⟨s'', o', hrun, hb'⟩ := ih 0 (probe cfg s) hleg.2 (by omega)
      exact ⟨s'', o', by simp only [runPool, stepOp]; exact hrun, hb'⟩
    | closing =>
      rw [legalRun] at hleg
      have hc : (Close cfg s).pool.length ≤ s.pool.length := by
        cases Close_pool_cases cfg s with
        | inl h => rw [h]; simp
        | inr h => rw [h]
      obtain ⟨s'', o', hrun, hb'⟩ := ih o (Close cfg s) hleg (by omega)
      exact ⟨s'', o', by simp only [runPool, stepOp]; exact hrun, hb'⟩

lemma legalRun_append (cfg : PoolOptions T) (ops₁ ops₂ : List (Op T)) :
    ∀ (o : Nat) (s : PoolState T),
    legalRun cfg o (ops₁ ++ ops₂) s = true → legalRun cfg o ops₁ s = true := by
  induction ops₁ with
  | nil =>
    intro o s _
    rfl
  | cons op ops ih =>
    intro o s hleg
    cases op with
    | next =>
      rw [List.cons_append, legalRun] at hleg
      rw [legalRun]
      cases hnx : Next cfg s with
      | panic =>
        rw [hnx] at hleg
        exact absurd hleg (by simp)
      | ok rs =>
        obtain ⟨r, s'⟩ := rs
        rw [hnx] at hleg
        exact ih o s' hleg
    | exNext =>
      rw [List.cons_append, legalRun] at hleg
      rw [legalRun]
      cases hex : ExNext cfg s with
      | panic =>
        rw [hex] at hleg
        exact absurd hleg (by simp)
      | ok rs =>
        obtain ⟨r, s'⟩ := rs
        cases r with
        | none =>
          rw [hex] at hleg
          exact ih o s' hleg
        | some c =>
          rw [hex] at hleg
          exact ih (o + 1) s' hleg
    | ret c =>
      rw [List.cons_append, legalRun] at hleg
      rw [legalRun]
      rw [Bool.and_eq_true] at hleg
      rw [Bool.and_eq_true]
      exact ⟨hleg.1, ih (o - 1) (Return s c) hleg.2⟩
    | probing =>
      rw [List.cons_append, legalRun] at hleg
      rw [legalRun]
      rw [Bool.and_eq_true] at hleg
      rw [Bool.and_eq_true]
      exact ⟨hleg.1, ih o (probe cfg s) hleg.2⟩
    | closing =>
      rw [List.cons_append, legalRun] at hleg
      rw [legalRun]
      exact ih o (Close cfg s) hleg

/-- C9 (amended): starting from a freshly constructed pool with target
count `T`, along every legal operation sequence — each `ret` matches a
prior exclusive checkout used at most once, no call panics, and (the
amendment the counterexample forces) no reconciliation pass runs while a
connection is exclusively checked out — the registry length stays within
`[0, T]` after every prefix of the sequence. -/
theorem c9_registry_bounded (cfg : PoolOptions T) (s₀ : PoolState T)
    (ops ops₁ ops₂ : List (Op T)) (hnew : New cfg = Except.ok s₀)
    (hsplit : ops = ops₁ ++ ops₂) (hrun : legalRun cfg 0 ops s₀ = true) :
    legalRun cfg 0 ops₁ s₀ = true ∧
    ∃ s₁, runPool cfg ops₁ s₀ = GoResult.ok s₁ ∧
      s₁.pool.length ≤ cfg.connections.toNat := by
  have hs₀ : s₀ = probe cfg (initialState T) := by
    unfold New at hnew
    cases hv : validate cfg with
    | some e =>
      rw [hv] at hnew
      exact absurd hnew (by simp)
    | none =>
      rw [hv] at hnew
      injection hnew with hnew
      exact hnew.symm
  have hb₀ : s₀.pool.length ≤ cfg.connections.toNat := by
    rw [hs₀]
    exact probe_length_le cfg (initialState T) (by simp [initialState])
  subst hsplit
  have hleg₁ := legalRun_append cfg ops₁ ops₂ 0 s₀ hrun
  obtain ⟨s₁, o', hrunok, hb'⟩ := legalRun_bound cfg ops₁ 0 s₀ hleg₁ (by omega)
  exact ⟨hleg₁, s₁, hrunok, by omega⟩

/-- Witness for C9 on the target-1 pool: the prefix `[exNext]` of the
legal trace `[exNext, ret 100]` keeps the registry within the bound. -/
theorem c9_registry_bounded_witness :
    legalRun cfgT 0 [Op.exNext] stT = true ∧
    ∃ s₁, runPool cfgT [Op.exNext] stT = GoResult.ok s₁ ∧
      s₁.pool.length ≤ cfgT.connections.toNat :=
  c9_registry_bounded cfgT stT [Op.exNext, Op.ret 100] [Op.exNext] [Op.ret 100]
    rfl rfl (by decide)

/-- Counterexample to C9 as stated: on a target-1 pool, checking out the
only connection, letting a reconciliation pass replenish the slot, and
then returning the checked-out connection (a trace that respects the
documented caller contract) leaves the registry at length 2 > 1. -/
theorem c9_counterexample :
    New cfgT = Except.ok stT ∧
    (match ExNext cfgT stT with
     | GoResult.ok (some c, _) => c
     | GoResult.ok (none, _) => 0
     | GoResult.panic => 0) = 100 ∧
    (match runPool cfgT [Op.exNext, Op.probing, Op.ret 100] stT with
     | GoResult.ok s => s.pool.length
     | GoResult.panic => 0) = 2 ∧
    cfgT.connections.toNat = 1 ∧ ¬ (2 : Nat) ≤ 1 := by
  refine ⟨rfl, by decide, by decide, by decide, by decide⟩

end PoolSpec
